import Mathlib

/-!
Verification of the `hoardy-mail` IMAP client core against its
natural-language specification.  Python functions from
`src/hoardy_mail/__main__.py` are shallowly embedded as executable Lean
definitions; machine integers are modelled as `Nat`/`Int`, byte strings as
`List Nat`, and effectful steps (server responses, filesystem syscalls) as
explicit oracle parameters.
-/

namespace HoardyMail

/-! ## Scheduler (`for_each_account_poll`) -/

/-- Inter-cycle sleep duration computed at `__main__.py:515`:
`to_sleep = max(60, repeat_at - now + random.randint(0, cfg.every_add_random))`
where `repeat_at - now = every - elapsed` (`repeat_at` is set at cycle start,
`now` is re-read at cycle end). -/
def poll_to_sleep (every elapsed draw : Int) : Int :=
  max 60 (every - elapsed + draw)

/-- Start instant of the next polling cycle: the previous start plus the
cycle's own duration plus the computed sleep. -/
def poll_next_start (start elapsed draw every : Int) : Int :=
  start + elapsed + poll_to_sleep every elapsed draw

/-! ## Filter builder (`make_search_filter`) -/

/-- English month abbreviations from `imap_months` (`__main__.py:194`). -/
def imap_months : List String :=
  ["Jan", "Feb", "Mar", "Apr", "May", "Jun", "Jul", "Aug", "Sep", "Oct", "Nov", "Dec"]

/-- Civil date (year, month, day) of a day count relative to 1970-01-01,
the conversion performed by `time.gmtime` on whole days. -/
def civilFromDays (z0 : Int) : Int × Int × Int :=
  let z := z0 + 719468
  let era := Int.fdiv z 146097
  let doe := z - era * 146097
  let yoe := Int.fdiv (doe - Int.fdiv doe 1460 + Int.fdiv doe 36524 - Int.fdiv doe 146096) 365
  let y := yoe + era * 400
  let doy := doe - (365 * yoe + Int.fdiv yoe 4 - Int.fdiv yoe 100)
  let mp := Int.fdiv (5 * doy + 2) 153
  let d := doy - Int.fdiv (153 * mp + 2) 5 + 1
  let m := mp + (if mp < 10 then 3 else -9)
  (y + (if m ≤ 2 then 1 else 0), m, d)

/-- Model of `imap_date(time.gmtime(secs))` (`__main__.py:197`): `D-Mon-YYYY` with the
day of month not zero-padded.  `time.gmtime` floors `secs` to whole days. -/
def imap_date_of (secs : Int) : String :=
  let c := civilFromDays (Int.fdiv secs 86400)
  toString c.2.2 ++ "-" ++ (imap_months.getD (c.2.1.toNat - 1) "") ++ "-" ++ toString c.1

/-- Model of `imap_quote` (`__main__.py:187`) on a single character: backslash and
double quote are escaped by a backslash. -/
def quoteChar (c : Char) : List Char :=
  if c = '\\' then ['\\', '\\'] else if c = '"' then ['\\', '"'] else [c]

/-- Model of `imap_quote` (`__main__.py:187`): escape `\` and `"`, wrap in quotes. -/
def imap_quote (arg : String) : String :=
  "\"" ++ String.mk (arg.data.foldr (fun c r => quoteChar c ++ r) []) ++ "\""

/-- The in-memory filter specification consumed by `make_search_filter`.
The instants read from `--older-than-timestamp-in`/`--older-than-mtime-of`
files (and the `newer` duals) are modelled as already-read nanosecond
integers, since file contents are outside the pure model. -/
structure FilterSpec where
  seen : Option Bool
  flagged : Option Bool
  hfrom : List String
  hnotfrom : List String
  older_than : List Int
  older_than_instants : List Int
  newer_than : List Int
  newer_than_instants : List Int

/-- Minimum of a list of instants, as Python `min` on a nonempty list. -/
def listMin : List Int → Option Int
  | [] => none
  | x :: xs => some (xs.foldl min x)

/-- Maximum of a list of instants, as Python `max` on a nonempty list. -/
def listMax : List Int → Option Int
  | [] => none
  | x :: xs => some (xs.foldl max x)

/-- Model of `make_search_filter` (`__main__.py:201`).  Returns the rendered SEARCH
expression and the `dynamic` flag.  Python divides nanoseconds by `10**9`
with float division before `time.gmtime` floors the result; this is modelled
as integer floor division. -/
def make_search_filter (cfg : FilterSpec) (now : Int) : String × Bool :=
  let filters0 : List String :=
    (match cfg.seen with
     | none => []
     | some true => ["SEEN"]
     | some false => ["UNSEEN"]) ++
    (match cfg.flagged with
     | none => []
     | some true => ["FLAGGED"]
     | some false => ["UNFLAGGED"]) ++
    cfg.hfrom.map (fun f => "FROM " ++ imap_quote f) ++
    cfg.hnotfrom.map (fun f => "NOT FROM " ++ imap_quote f)
  let older := cfg.older_than.map (fun dt => now - dt * 86400 * 1000000000) ++
    cfg.older_than_instants
  let filters1 := filters0 ++
    (match listMin older with
     | none => []
     | some t => ["BEFORE " ++ imap_date_of (Int.fdiv t 1000000000)])
  let newer := cfg.newer_than.map (fun dt => now - dt * 86400 * 1000000000) ++
    cfg.newer_than_instants
  let filters := filters1 ++
    (match listMax newer with
     | none => []
     | some t => ["NOT BEFORE " ++ imap_date_of (Int.fdiv t 1000000000)])
  let dynamic := older ≠ [] ∨ newer ≠ []
  if filters = [] then ("(ALL)", dynamic)
  else ("(" ++ String.intercalate " " filters ++ ")", dynamic)

/-- Modelled from the spec (§4.9, §3): the deterministic rendering the
specification prescribes — a single parenthesised string whose terms appear
in the fixed order SEEN/UNSEEN, FLAGGED/UNFLAGGED, FROM includes in input
order, NOT FROM excludes in input order, BEFORE from the minimum of the
merged older-than instants, NOT BEFORE from the maximum of the merged
newer-than instants, dates formatted via gmtime as D-Mon-YYYY rounded down
to whole days; no terms renders as "(ALL)". -/
def search_filter_spec (cfg : FilterSpec) (now : Int) : String :=
  let seenTerm : List String :=
    match cfg.seen with
    | none => []
    | some true => ["SEEN"]
    | some false => ["UNSEEN"]
  let flaggedTerm : List String :=
    match cfg.flagged with
    | none => []
    | some true => ["FLAGGED"]
    | some false => ["UNFLAGGED"]
  let fromTerms := cfg.hfrom.map (fun f => "FROM " ++ imap_quote f)
  let notFromTerms := cfg.hnotfrom.map (fun f => "NOT FROM " ++ imap_quote f)
  let olderInstants := cfg.older_than.map (fun dt => now - dt * 86400 * 1000000000) ++
    cfg.older_than_instants
  let beforeTerm : List String :=
    match listMin olderInstants with
    | none => []
    | some t => ["BEFORE " ++ imap_date_of (Int.fdiv t 1000000000)]
  let newerInstants := cfg.newer_than.map (fun dt => now - dt * 86400 * 1000000000) ++
    cfg.newer_than_instants
  let notBeforeTerm : List String :=
    match listMax newerInstants with
    | none => []
    | some t => ["NOT BEFORE " ++ imap_date_of (Int.fdiv t 1000000000)]
  let terms := seenTerm ++ flaggedTerm ++ fromTerms ++ notFromTerms ++ beforeTerm ++ notBeforeTerm
  if terms = [] then "(ALL)" else "(" ++ String.intercalate " " terms ++ ")"

/-! ## Wire codec (`imap_parse_data`, `imap_parse`, `imap_quote`)

Bytes are modelled as `Nat` codes: `'"' = 34`, `'\\' = 92`, `' ' = 32`,
`'(' = 40`, `')' = 41`, `'{' = 123`, `'}' = 125`. -/

/-- A node of the response tree produced by `imap_parse_data`: a byte string
or a parenthesised group. -/
inductive ITree where
  | str : List Nat → ITree
  | grp : List ITree → ITree

/-- Everything up to and including the first `}` is dropped, as
`data.find(b"}", i+1)` skips the digits between the braces without parsing
them (`__main__.py:89`); `none` when no `}` occurs. -/
def splitAtRBrace : List Nat → Option (List Nat)
  | [] => none
  | c :: t => if c = 125 then some t else splitAtRBrace t

mutual

/-- The `state is False` arm of the `imap_parse_data` loop
(`__main__.py:63`).  Arguments: fuel, remaining bytes, remaining literals,
`top_level`, accumulated tree nodes `acc`, current atom bytes `res`.
Returns `(acc, rest, literals)` or the `ValueError` message. -/
def ipLoop : Nat → List Nat → List (List Nat) → Bool → List ITree → List Nat →
    Except String (List ITree × List Nat × List (List Nat))
  | 0, _, _, _, _, _ => .error "out of fuel"
  | _ + 1, [], lits, top, acc, res =>
    if res ≠ [] then
      if top then .ok (acc ++ [.str res], [], lits)
      else .error "unfinished quote or parens"
    else .ok (acc, [], lits)
  | fuel + 1, c :: t, lits, top, acc, res =>
    if c = 34 then
      if res ≠ [] then .error "unexpected quote"
      else ipQuoted fuel t lits top acc []
    else if c = 32 then ipLoop fuel t lits top (acc ++ [.str res]) []
    else if c = 40 then
      if res ≠ [] then .error "unexpected parens"
      else
        match ipLoop fuel t lits false [] [] with
        | .error e => .error e
        | .ok (group, rest, lits') =>
          let acc' := acc ++ [.grp group]
          match rest with
          | [] => .ok (acc', [], lits')
          | d :: rest' =>
            if d = 32 ∨ d = 41 then ipLoop fuel rest' lits' top acc' []
            else .error "expecting space or end parens"
    else if c = 41 then .ok (acc ++ [.str res], t, lits)
    else if c = 123 then
      if res ≠ [] then .error "unexpected curly"
      else
        match splitAtRBrace t with
        | none => .error "expected curly"
        | some t2 =>
          match lits with
          | [] => .error "IndexError: pop from empty list"
          | l :: ls =>
            let acc' := acc ++ [.str l]
            match t2 with
            | [] => .ok (acc', [], ls)
            | d :: rest' =>
              if d = 32 ∨ d = 41 then ipLoop fuel rest' ls top acc' []
              else .error "expecting space or end parens"
    else ipLoop fuel t lits top acc (res ++ [c])

/-- The `state is True` (inside a quoted string) arm of the
`imap_parse_data` loop (`__main__.py:102`). -/
def ipQuoted : Nat → List Nat → List (List Nat) → Bool → List ITree → List Nat →
    Except String (List ITree × List Nat × List (List Nat))
  | 0, _, _, _, _, _ => .error "out of fuel"
  | _ + 1, [], lits, _, acc, res =>
    if res ≠ [] then .error "unfinished quote or parens"
    else .ok (acc, [], lits)
  | fuel + 1, c :: t, lits, top, acc, res =>
    if c = 34 then ipLoop fuel t lits top acc res
    else if c = 92 then
      match t with
      | [] => .error "unfinished escape sequence"
      | d :: t' => ipQuoted fuel t' lits top acc (res ++ [d])
    else ipQuoted fuel t lits top acc (res ++ [c])

end

/-- Model of `imap_parse_data` (`__main__.py:50`) at top level.  Two fuel units per
input byte always suffice: each loop step consumes at least one byte, and a
byte is re-examined at most once after a nested-group return. -/
def imap_parse_data (data : List Nat) (literals : List (List Nat)) :
    Except String (List ITree × List Nat × List (List Nat)) :=
  ipLoop (2 * data.length + 2) data literals true [] []

/-- Model of `imap_parse` (`__main__.py:120`): top-level parse rejecting a nonempty
tail. -/
def imap_parse (line : List Nat) (literals : List (List Nat)) :
    Except String (List ITree) :=
  match imap_parse_data line literals with
  | .error e => .error e
  | .ok (res, rest, _) => if rest ≠ [] then .error "unexpected tail" else .ok res

/-- Model of `imap_quote` (`__main__.py:187`) on bytes: escape `\` (92) and `"` (34)
with a backslash and wrap in double quotes. -/
def quoteByte (c : Nat) : List Nat :=
  if c = 92 then [92, 92] else if c = 34 then [92, 34] else [c]

/-- The escaped body of a quoted string: each byte through `quoteByte`. -/
def quotedBody (s : List Nat) : List Nat :=
  s.foldr (fun c r => quoteByte c ++ r) []

/-- Byte-level `imap_quote`: the quoted wire form of a string's bytes. -/
def imap_quote_bytes (s : List Nat) : List Nat :=
  34 :: quotedBody s ++ [34]

/-! ## Action engine: accounts, wire commands, `do_store` -/

/-- Message UIDs are opaque server-side identifiers. -/
abbrev Uid := Nat

/-- Mutable per-cycle telemetry of an `Account` (`__main__.py:353`); errors
and changes are kept as opaque string lists. -/
structure AccountSt where
  num_delivered : Nat := 0
  num_undelivered : Nat := 0
  num_marked : Nat := 0
  num_trashed : Nat := 0
  num_deleted : Nat := 0
  changes : List String := []
  errors : List String := []

/-- IMAP commands observable on the wire, as issued by the action engine. -/
inductive Cmd where
  | search (filter : String)
  | store (uids : List Uid) (flagsArg flagVal : String)
  | expunge
  | fetchSize (uids : List Uid)
  | fetchBody (uids : List Uid)
  | select (folder : String)
  | close
deriving DecidableEq, Repr

/-- Slicing `l[:n], l[n:]` repeated until exhaustion, the batching idiom of
`do_store`/`do_fetch`.  The source loops forever when `n = 0`; the model
returns no slices in that degenerate case and theorems assume `0 < n`. -/
def chunks (n : Nat) : List α → List (List α)
  | [] => []
  | a :: l =>
    if _h : n = 0 then []
    else (a :: l).take n :: chunks n ((a :: l).drop n)
termination_by l => l.length
decreasing_by
  have h2 : 0 < n := Nat.pos_of_ne_zero _h
  simp only [List.length_drop, List.length_cons]
  omega

/-- One `do_store` slice (`__main__.py:1407`): the commands sent for one
`to_store` group and the telemetry update given the server's verdict `ok`. -/
def do_store_slice (method : String) (to_store : List Uid) (ok : Bool)
    (acc : AccountSt) : AccountSt × List Cmd :=
  let cmds :=
    if method = "seen" then [Cmd.store to_store "+FLAGS.SILENT" "\\Seen"]
    else if method = "unseen" then [Cmd.store to_store "-FLAGS.SILENT" "\\Seen"]
    else if method = "flagged" then [Cmd.store to_store "+FLAGS.SILENT" "\\Flagged"]
    else if method = "unflagged" then [Cmd.store to_store "-FLAGS.SILENT" "\\Flagged"]
    else if method = "delete" ∨ method = "delete-noexpunge" then
      Cmd.store to_store "+FLAGS.SILENT" "\\Deleted" ::
        (if ok ∧ method = "delete" then [Cmd.expunge] else [])
    else if method = "gmail-trash" then [Cmd.store to_store "+X-GM-LABELS" "\\Trash"]
    else []
  let acc' :=
    if ok then
      if method = "delete" ∨ method = "delete-noexpunge" then
        { acc with num_deleted := acc.num_deleted + to_store.length }
      else if method = "gmail-trash" then
        { acc with num_trashed := acc.num_trashed + to_store.length }
      else { acc with num_marked := acc.num_marked + to_store.length }
    else { acc with errors := acc.errors ++ ["IMAP STORE command failed"] }
  (acc', cmds)

/-- The `do_store` loop over `store_number`-sized slices; `resp` yields the
server verdict for each successive STORE. -/
def do_store_go (method : String) (resp : List Bool) :
    List (List Uid) → AccountSt → AccountSt × List Cmd
  | [], acc => (acc, [])
  | g :: gs, acc =>
    let (acc', cmds) := do_store_slice method g (resp.headD true) acc
    let (acc'', rest) := do_store_go method resp.tail gs acc'
    (acc'', cmds ++ rest)

/-- Model of `do_store` (`__main__.py:1390`): no-op for `noop`, otherwise slice the
UID list by `store_number` and issue one store (plus `EXPUNGE` for method
`delete` on success) per slice. -/
def do_store (store_number : Nat) (method : String) (message_uids : List Uid)
    (resp : List Bool) (acc : AccountSt) : AccountSt × List Cmd :=
  if method = "noop" then (acc, [])
  else do_store_go method resp (chunks store_number message_uids) acc

/-- Method resolution for the `delete` command (`__main__.py:916`):
`auto` becomes `gmail-trash` exactly for host `imap.gmail.com` outside the
`[Gmail]/Trash` folder, else `delete`. -/
def resolve_delete_method (method host folder : String) : String :=
  if method = "auto" then
    if host = "imap.gmail.com" ∧ folder ≠ "[Gmail]/Trash" then "gmail-trash"
    else "delete"
  else method

/-- Configuration of one `delete` sub-action. -/
structure DeleteCfg where
  dry_run : Bool
  method : String
  store_number : Nat
  search_filter : String

/-- Result scope of one folder action: normal return or a `FolderFailure`
caught by `for_each_folder_`. -/
inductive FolderResult where
  | ok
  | folderFail
deriving DecidableEq, Repr

/-- Model of `do_folder_action` for `command == "delete"` (`__main__.py:873`): UID
SEARCH, method resolution, the dry-run early return, the cross-action
failure barrier, and the STORE loop with `changes` bookkeeping.
`searchResp` is `none` when the server answers the SEARCH with non-OK or a
null result (both raise `FolderFailure`). -/
def do_folder_action_delete (cfg : DeleteCfg) (host folder : String)
    (searchResp : Option (List Uid)) (storeResp : List Bool)
    (acc : AccountSt) : AccountSt × List Cmd × FolderResult :=
  match searchResp with
  | none => (acc, [Cmd.search cfg.search_filter], .folderFail)
  | some message_uids =>
    let method := resolve_delete_method cfg.method host folder
    if cfg.dry_run then (acc, [Cmd.search cfg.search_filter], .ok)
    else if acc.errors ≠ [] then
      ({ acc with errors := acc.errors ++
          ["one of the previous commands reported issues: not deleting"] },
       [Cmd.search cfg.search_filter], .ok)
    else if message_uids = [] then (acc, [Cmd.search cfg.search_filter], .ok)
    else
      let r := do_store cfg.store_number method message_uids storeResp acc
      let num_trashed := r.1.num_trashed - acc.num_trashed
      let a2 := if num_trashed > 0 then
          { r.1 with changes := r.1.changes ++ ["trashed messages"] } else r.1
      let num_deleted := a2.num_deleted - acc.num_deleted
      let a3 := if num_deleted > 0 then
          { a2 with changes := a2.changes ++ ["deleted messages"] } else a2
      (a3, Cmd.search cfg.search_filter :: r.2, .ok)

/-! ## Folder iteration (`for_each_folder_`) -/

/-- How one folder's action terminates: normally, with a `FolderFailure`
caught by `for_each_folder_` (`__main__.py:867`), or with any other
exception (`AccountSoftFailure`, `CatastrophicFailure`, a signal, an
`OSError`), which propagates out of the folder loop uncaught. -/
inductive ActOutcome where
  | ok
  | folderFail
  | hardFail
deriving DecidableEq, Repr

/-- Model of `for_each_folder_` (`__main__.py:844`): skip `not_folders`, SELECT each
remaining folder, run the action, catch only `FolderFailure`, then CLOSE.
Returns the final telemetry, the select/close wire trace, and whether the
loop ran to completion (`false` when an uncaught exception escaped). -/
def for_each_folder (selectOk : String → Bool) (act : String → ActOutcome)
    (notFolders : List String) : List String → AccountSt → AccountSt × List Cmd × Bool
  | [], acc => (acc, [], true)
  | f :: fs, acc =>
    if f ∈ notFolders then for_each_folder selectOk act notFolders fs acc
    else if ¬ selectOk f then
      let acc' := { acc with errors := acc.errors ++ ["IMAP SELECT command failed"] }
      let r := for_each_folder selectOk act notFolders fs acc'
      (r.1, Cmd.select f :: r.2.1, r.2.2)
    else
      match act f with
      | .ok =>
        let r := for_each_folder selectOk act notFolders fs acc
        (r.1, Cmd.select f :: Cmd.close :: r.2.1, r.2.2)
      | .folderFail =>
        let acc' := { acc with errors := acc.errors ++ ["folder failure"] }
        let r := for_each_folder selectOk act notFolders fs acc'
        (r.1, Cmd.select f :: Cmd.close :: r.2.1, r.2.2)
      | .hardFail => (acc, [Cmd.select f], false)

/-! ## Batch packing (`do_fetch`, `__main__.py:1055`) -/

/-- A batch entry pairs a UID with its probed `RFC822.SIZE`; the source
keeps the UID list and a running `batch_total`, which always equals the sum
of the sizes of the batch's members. -/
abbrev BEntry := Uid × Nat

/-- Total size of a running batch (the source's `batch_total`). -/
def sumSizes (l : List BEntry) : Nat := (l.map Prod.snd).sum

/-- One pass of the `for uel in new` loop (`__main__.py:1057`): each
message is appended to the running batch when both bounds hold, and to
`leftovers` otherwise; later messages may still be appended after an
earlier one overflowed.  Returns the grown batch and the leftovers. -/
def packPass (bn bs : Nat) : List BEntry → List BEntry → List BEntry × List BEntry
  | [], batch => (batch, [])
  | (u, s) :: rest, batch =>
    if batch.length < bn ∧ sumSizes batch + s < bs then
      packPass bn bs rest (batch ++ [(u, s)])
    else
      let r := packPass bn bs rest batch
      (r.1, (u, s) :: r.2)

/-- The `while True` packing loop (`__main__.py:1055`): run a pass; if
nothing is left over, keep the batch running; otherwise, when the batch is
still empty, pop the first (oversize) leftover into a solitary batch; emit
the batch via `do_fetch_batch` and loop on the leftovers.  Returns the
emitted batches and the still-running batch. -/
def packLoop (bn bs : Nat) (new batch : List BEntry) :
    List (List BEntry) × List BEntry :=
  match hp : packPass bn bs new batch with
  | (b', []) => ([], b')
  | ([], x :: lo') =>
    let r := packLoop bn bs lo' []
    ([x] :: r.1, r.2)
  | (b1 :: b2, x :: lo') =>
    let r := packLoop bn bs (x :: lo') []
    ((b1 :: b2) :: r.1, r.2)
termination_by new.length + batch.length
decreasing_by
  · have key : ∀ (nw bt : List BEntry),
        (packPass bn bs nw bt).1.length + (packPass bn bs nw bt).2.length =
          bt.length + nw.length := by
      intro nw
      induction nw with
      | nil => intro bt; simp [packPass]
      | cons h t ih =>
        intro bt
        obtain ⟨u, s⟩ := h
        simp only [packPass]
        split
        · rw [ih]; simp; omega
        · simp only [List.length_cons]; rw [← Nat.add_assoc, ih]; omega
    have := key new batch
    rw [hp] at this
    simp only [List.length_cons, List.length_nil] at this ⊢
    omega
  · have key : ∀ (nw bt : List BEntry),
        (packPass bn bs nw bt).1.length + (packPass bn bs nw bt).2.length =
          bt.length + nw.length := by
      intro nw
      induction nw with
      | nil => intro bt; simp [packPass]
      | cons h t ih =>
        intro bt
        obtain ⟨u, s⟩ := h
        simp only [packPass]
        split
        · rw [ih]; simp; omega
        · simp only [List.length_cons]; rw [← Nat.add_assoc, ih]; omega
    have := key new batch
    rw [hp] at this
    simp only [List.length_cons, List.length_nil] at this ⊢
    omega

/-- The outer structure of `do_fetch`'s packing: successive probed groups
feed the packing loop, the running batch carries over between groups, and
the final `do_fetch_batch(batch, ...)` call (`__main__.py:1078`) flushes
the remainder (a no-op when empty). -/
def packGroups (bn bs : Nat) : List (List BEntry) → List BEntry → List (List BEntry)
  | [], batch => if batch = [] then [] else [batch]
  | g :: gs, batch =>
    let r := packLoop bn bs g batch
    r.1 ++ packGroups bn bs gs r.2

/-- The invariant of the running batch: it is empty, or it respects both
the `batch_number` and the strict `batch_size` bound. -/
def GoodBatch (bn bs : Nat) (b : List BEntry) : Prop :=
  b = [] ∨ (b.length ≤ bn ∧ sumSizes b < bs)

/-! ## Size probing (`do_fetch`, `__main__.py:1019`) -/

/-- One parsed element of a `UID FETCH (RFC822.SIZE)` response: either a
`(UID, RFC822.SIZE)` pair or an attribute map lacking one of the two keys
(`KeyError` → `account_conflict`, `__main__.py:1039`). -/
inductive Entry where
  | pair (uid : Uid) (size : Nat)
  | conflict
deriving DecidableEq, Repr

/-- A size-probe result: a non-OK reply or a parsed entry list. -/
inductive ProbeResp where
  | fail
  | ok (entries : List Entry)
deriving DecidableEq, Repr

/-- Error message appended by `account_conflict` (`__main__.py:388`). -/
def conflictMsg : String :=
  "another IMAP client is performing potentially conflicting actions in parallel with us"

/-- Error message for a non-OK FETCH (`__main__.py:1027`). -/
def fetchFailMsg : String := "IMAP FETCH command failed"

/-- Error message for an incomplete probe group (`__main__.py:1048`). -/
def groupIncompleteMsg : String :=
  "IMAP FETCH command failed: the result does not have all requested messages"

/-- The `for el in data` entry loop of a probe group (`__main__.py:1031`):
collect `(uid, size)` pairs in order, delete each returned UID from
`to_fetch_set`, record a conflict error for entries lacking the keys.
`none` models the uncaught `KeyError` that `to_fetch_set.remove` raises
when the server returns a UID that was not requested (or a duplicate). -/
def processEntries : List Entry → List Uid → List BEntry → List String →
    Option (List BEntry × List Uid × List String)
  | [], remaining, new, errs => some (new, remaining, errs)
  | .pair u s :: rest, remaining, new, errs =>
    if u ∈ remaining then processEntries rest (remaining.erase u) (new ++ [(u, s)]) errs
    else none
  | .conflict :: rest, remaining, new, errs =>
    processEntries rest remaining new (errs ++ [conflictMsg])

/-- The UID–size pairs carried by a probe response. -/
def probePairs : ProbeResp → List BEntry
  | .fail => []
  | .ok entries => entries.foldr
      (fun e r => match e with | .pair u s => (u, s) :: r | .conflict => r) []

/-- The `while len(message_uids) > 0` loop of `do_fetch`
(`__main__.py:1019`): for each `fetch_number`-sized group issue the size
probe, fail the whole group on a non-OK reply or a missing UID, otherwise
pack the probed pairs.  Returns the updated telemetry and the batches
handed to `do_fetch_batch`, or `none` when the `KeyError` crash escapes. -/
def do_fetch_go (bn bs : Nat) :
    List (List Uid) → List ProbeResp → AccountSt → List (List BEntry) → List BEntry →
    Option (AccountSt × List (List BEntry))
  | [], _, acc, batches, batch =>
    some (acc, batches ++ if batch = [] then [] else [batch])
  | g :: gs, resps, acc, batches, batch =>
    match resps.headD .fail with
    | .fail =>
      do_fetch_go bn bs gs resps.tail
        { acc with num_undelivered := acc.num_undelivered + g.length,
                   errors := acc.errors ++ [fetchFailMsg] } batches batch
    | .ok entries =>
      match processEntries entries g [] [] with
      | none => none
      | some (new, remaining, conflictErrs) =>
        if remaining ≠ [] then
          do_fetch_go bn bs gs resps.tail
            { acc with num_undelivered := acc.num_undelivered + g.length,
                       errors := acc.errors ++ conflictErrs ++ [groupIncompleteMsg] }
            batches batch
        else
          let r := packLoop bn bs new batch
          do_fetch_go bn bs gs resps.tail
            { acc with errors := acc.errors ++ conflictErrs } (batches ++ r.1) r.2

/-- Model of `do_fetch` (`__main__.py:1013`): slice the SEARCH result by
`fetch_number` and run the probe/pack loop. -/
def do_fetch (fetch_number bn bs : Nat) (message_uids : List Uid)
    (resps : List ProbeResp) (acc : AccountSt) : Option (AccountSt × List (List BEntry)) :=
  do_fetch_go bn bs (chunks fetch_number message_uids) resps acc [] []

/-! ## Maildir delivery finalization (`do_fetch_batch`, `__main__.py:1248`) -/

/-- The Maildir end-of-batch sequence: per-file `fsync`+close, directory
lock, renames into `new/`, directory `fsync`+unlock+close.  `unsynced` are
the UIDs whose temporary files were written, `failed0` the UIDs already
failed during writing.  Oracles give each syscall's success.  Returns
`(done_uids, failed_uids, errors appended)`. -/
def maildir_finish (fsyncOk : Uid → Bool) (lockOk : Bool) (renameOk : Uid → Bool)
    (dirSyncOk : Bool) (unsynced failed0 : List Uid) :
    List Uid × List Uid × List String :=
  let synced := unsynced.filter (fun u => fsyncOk u)
  let failed1 := failed0 ++ unsynced.filter (fun u => ! fsyncOk u)
  if ¬ lockOk then
    ([], failed1 ++ synced, ["failed to lock --maildir"])
  else
    let done := synced.filter (fun u => renameOk u)
    let failed2 := failed1 ++ synced.filter (fun u => ! renameOk u)
    if ¬ dirSyncOk then
      ([], failed2 ++ done, ["failed to sync --maildir"])
    else (done, failed2, [])

/-- How `do_fetch_batch` terminates: normal return, `AccountSoftFailure`
(`careful` mode with zero deliveries, `__main__.py:1374`), or
`CatastrophicFailure` (`paranoid` mode, `__main__.py:1378`). -/
inductive BatchOutcome where
  | ok
  | softFail
  | catastrophic
deriving DecidableEq, Repr

/-- The tail of `do_fetch_batch` for Maildir delivery (`__main__.py:1248`
to `1382`): finish delivery, update the counters, report failures, apply
the `paranoid` policy and finally STORE the delivered UIDs. -/
def do_fetch_batch_tail (paranoid : Option Bool) (store_number : Nat) (mark : String)
    (storeResp : List Bool) (fsyncOk : Uid → Bool) (lockOk : Bool)
    (renameOk : Uid → Bool) (dirSyncOk : Bool) (unsynced failed0 : List Uid)
    (acc : AccountSt) : AccountSt × List Cmd × BatchOutcome :=
  let r := maildir_finish fsyncOk lockOk renameOk dirSyncOk unsynced failed0
  let done := r.1
  let failed := r.2.1
  let acc1 := { acc with num_delivered := acc.num_delivered + done.length,
                         num_undelivered := acc.num_undelivered + failed.length,
                         errors := acc.errors ++ r.2.2 }
  if failed.length > 0 then
    let acc2 := { acc1 with errors := acc1.errors ++ ["failed to deliver messages"] }
    if paranoid ≠ none ∧ done.length = 0 then (acc2, [], .softFail)
    else if paranoid = some true then (acc2, [], .catastrophic)
    else
      let s := do_store store_number mark done storeResp acc2
      (s.1, s.2, .ok)
  else
    let s := do_store store_number mark done storeResp acc1
    (s.1, s.2, .ok)

/-! ## Theorems -/

/-- C6 counterexample: the claimed sleep formula
`max(60, interval − elapsed) + U(0, jitter)` disagrees with the code's
`max(60, interval − elapsed + U(0, jitter))`: with `interval = 100`,
`elapsed = 90` and a jitter draw of `30` the code sleeps 60 seconds while
the claimed formula gives 90. -/
theorem poll_sleep_formula_cex :
    poll_to_sleep 100 90 30 = 60 ∧ max 60 ((100 : Int) - 90) + 30 = 90 ∧ ((60 : Int) ≠ 90) := by
  refine ⟨?_, ?_, ?_⟩ <;> norm_num [poll_to_sleep]

/-- C6 amended: between consecutive polling cycles the code sleeps
`max(60, interval − elapsed + U(0, jitter))` seconds (the jitter draw is
added inside the `max`); consequently successive cycle starts are always at
least 60 seconds apart. -/
theorem poll_sleep_formula (start every elapsed draw : Int) (h : 0 ≤ elapsed) :
    poll_to_sleep every elapsed draw = max 60 (every - elapsed + draw) ∧
    60 ≤ poll_next_start start elapsed draw every - start := by
  refine ⟨rfl, ?_⟩
  unfold poll_next_start poll_to_sleep
  have := le_max_left 60 (every - elapsed + draw)
  omega

/-- C6 amended, witness at interval 100, elapsed 90, draw 30. -/
theorem poll_sleep_formula_witness :
    poll_to_sleep 100 90 30 = max 60 ((100 : Int) - 90 + 30) ∧
    60 ≤ poll_next_start 0 90 30 100 - 0 :=
  poll_sleep_formula 0 100 90 30 (by norm_num)

/-- C4: `make_search_filter` renders exactly the specification's fixed-order
parenthesised SEARCH string — SEEN/UNSEEN, then FLAGGED/UNFLAGGED, then FROM
includes in input order, then NOT FROM excludes, then BEFORE from the
minimum merged older-than instant, then NOT BEFORE from the maximum merged
newer-than instant, with gmtime day-rounded dates, and "(ALL)" when no term
is present. -/
theorem make_search_filter_refines_spec (cfg : FilterSpec) (now : Int) :
    (make_search_filter cfg now).1 = search_filter_spec cfg now := by
  simp only [make_search_filter, search_filter_spec, List.append_assoc, apply_ite Prod.fst]

/-- C1: the cross-action failure barrier.  When a `delete` sub-action (not
in dry-run mode) reaches a folder with a successful SEARCH while the
account's errors list is non-empty, the action appends exactly one error,
issues no STORE and no EXPUNGE, and leaves `num_deleted` and `num_trashed`
(indeed all counters) unchanged. -/
theorem delete_barrier_skips (cfg : DeleteCfg) (host folder : String)
    (uids : List Uid) (storeResp : List Bool) (acc : AccountSt)
    (hdry : cfg.dry_run = false) (herr : acc.errors ≠ []) :
    (do_folder_action_delete cfg host folder (some uids) storeResp acc).1.num_deleted
        = acc.num_deleted ∧
    (do_folder_action_delete cfg host folder (some uids) storeResp acc).1.num_trashed
        = acc.num_trashed ∧
    (do_folder_action_delete cfg host folder (some uids) storeResp acc).1.errors
        = acc.errors ++ ["one of the previous commands reported issues: not deleting"] ∧
    (∀ c ∈ (do_folder_action_delete cfg host folder (some uids) storeResp acc).2.1,
      (∀ us fa fv, c ≠ Cmd.store us fa fv) ∧ c ≠ Cmd.expunge) := by
  have hres : do_folder_action_delete cfg host folder (some uids) storeResp acc =
      ({ acc with errors := acc.errors ++
          ["one of the previous commands reported issues: not deleting"] },
       [Cmd.search cfg.search_filter], .ok) := by
    simp [do_folder_action_delete, hdry, herr]
  rw [hres]
  refine ⟨rfl, rfl, rfl, ?_⟩
  intro c hc
  simp only [List.mem_singleton] at hc
  subst hc
  constructor
  · intro us fa fv h
    cases h
  · intro h
    cases h

/-- C1 witness: the barrier fires at a concrete configuration with one
prior error. -/
theorem delete_barrier_skips_witness :
    (do_folder_action_delete ⟨false, "auto", 150, "(ALL)"⟩ "h" "f" (some [1])
        [] { errors := ["e"] }).1.num_deleted = ({ errors := ["e"] } : AccountSt).num_deleted ∧
    (do_folder_action_delete ⟨false, "auto", 150, "(ALL)"⟩ "h" "f" (some [1])
        [] { errors := ["e"] }).1.num_trashed = ({ errors := ["e"] } : AccountSt).num_trashed ∧
    (do_folder_action_delete ⟨false, "auto", 150, "(ALL)"⟩ "h" "f" (some [1])
        [] { errors := ["e"] }).1.errors
      = ["e"] ++ ["one of the previous commands reported issues: not deleting"] ∧
    (∀ c ∈ (do_folder_action_delete ⟨false, "auto", 150, "(ALL)"⟩ "h" "f" (some [1])
        [] { errors := ["e"] }).2.1,
      (∀ us fa fv, c ≠ Cmd.store us fa fv) ∧ c ≠ Cmd.expunge) :=
  delete_barrier_skips ⟨false, "auto", 150, "(ALL)"⟩ "h" "f" [1] [] { errors := ["e"] }
    rfl (by simp)

/-- Storing an empty UID list issues nothing and changes nothing. -/
theorem do_store_nil (n : Nat) (m : String) (resp : List Bool) (acc : AccountSt) :
    do_store n m [] resp acc = (acc, []) := by
  by_cases h : m = "noop" <;> simp [do_store, h, chunks, do_store_go]

/-- Every command the `gmail-trash` STORE loop issues is a
`UID STORE +X-GM-LABELS \Trash`. -/
theorem do_store_go_gmail_shape (gs : List (List Uid)) (resp : List Bool) (acc : AccountSt) :
    ∀ c ∈ (do_store_go "gmail-trash" resp gs acc).2,
      ∃ g, c = Cmd.store g "+X-GM-LABELS" "\\Trash" := by
  induction gs generalizing resp acc with
  | nil => simp [do_store_go]
  | cons g gs ih =>
    intro c hc
    simp only [do_store_go, do_store_slice] at hc
    simp +decide at hc
    rcases hc with h | h
    · exact ⟨g, h⟩
    · exact ih _ _ c h

/-- C7: `auto` delete-method resolution and gmail-trash wire shape.  `auto`
resolves to `gmail-trash` exactly for host `imap.gmail.com` on a folder
other than `[Gmail]/Trash` (and to `delete` otherwise), and whenever the
resolved method is `gmail-trash` every command issued by the delete action
is the SEARCH or a `UID STORE +X-GM-LABELS \Trash`; in particular no
`\Deleted` flag is set and no EXPUNGE is issued. -/
theorem gmail_trash_resolution_and_wire (host folder : String) :
    ((resolve_delete_method "auto" host folder = "gmail-trash") ↔
      (host = "imap.gmail.com" ∧ folder ≠ "[Gmail]/Trash")) ∧
    (¬ (host = "imap.gmail.com" ∧ folder ≠ "[Gmail]/Trash") →
      resolve_delete_method "auto" host folder = "delete") ∧
    (∀ (cfg : DeleteCfg) (sr : Option (List Uid)) (storeResp : List Bool) (acc : AccountSt),
      resolve_delete_method cfg.method host folder = "gmail-trash" →
      ∀ c ∈ (do_folder_action_delete cfg host folder sr storeResp acc).2.1,
        c = Cmd.search cfg.search_filter ∨
          ∃ g, c = Cmd.store g "+X-GM-LABELS" "\\Trash") := by
  refine ⟨?_, ?_, ?_⟩
  · by_cases h : host = "imap.gmail.com" ∧ folder ≠ "[Gmail]/Trash" <;>
      simp [resolve_delete_method, h]
  · intro h
    simp [resolve_delete_method, h]
  · intro cfg sr storeResp acc hres c hc
    match sr with
    | none =>
      simp only [do_folder_action_delete, List.mem_singleton] at hc
      exact Or.inl hc
    | some uids =>
      simp only [do_folder_action_delete, hres] at hc
      by_cases hdry : cfg.dry_run
      · simp [hdry] at hc
        exact Or.inl hc
      · simp only [hdry, Bool.false_eq_true, if_false] at hc
        by_cases herr : acc.errors = []
        · simp only [herr, ne_eq, not_true_eq_false, if_false] at hc
          by_cases huids : uids = []
          · simp [huids] at hc
            exact Or.inl hc
          · simp only [huids, if_false, if_neg] at hc
            · rcases List.mem_cons.mp hc with h | h
              · exact Or.inl h
              · refine Or.inr ?_
                have := do_store_go_gmail_shape (chunks cfg.store_number uids) storeResp acc c
                simp only [do_store] at h
                rw [if_neg (by decide)] at h
                exact this h
        · simp [herr] at hc
          exact Or.inl hc

/-- C7 witness: resolution at the gmail host and an ordinary host, and the
wire shape at a concrete delete invocation. -/
theorem gmail_trash_resolution_and_wire_witness :
    (resolve_delete_method "auto" "imap.gmail.com" "INBOX" = "gmail-trash" ↔
      ("imap.gmail.com" = "imap.gmail.com" ∧ "INBOX" ≠ "[Gmail]/Trash")) ∧
    (¬ ("imap.gmail.com" = "imap.gmail.com" ∧ "INBOX" ≠ "[Gmail]/Trash") →
      resolve_delete_method "auto" "imap.gmail.com" "INBOX" = "delete") ∧
    (∀ (cfg : DeleteCfg) (sr : Option (List Uid)) (storeResp : List Bool) (acc : AccountSt),
      resolve_delete_method cfg.method "imap.gmail.com" "INBOX" = "gmail-trash" →
      ∀ c ∈ (do_folder_action_delete cfg "imap.gmail.com" "INBOX" sr storeResp acc).2.1,
        c = Cmd.search cfg.search_filter ∨
          ∃ g, c = Cmd.store g "+X-GM-LABELS" "\\Trash") :=
  gmail_trash_resolution_and_wire "imap.gmail.com" "INBOX"

/-- C9 counterexample: a folder can be successfully SELECTed and yet never
CLOSEd.  With a single folder "A", a successful SELECT and an action that
raises anything other than `FolderFailure` (for example the
`AccountSoftFailure` of careful-mode zero-delivery, or a delayed signal),
the wire trace is exactly `[SELECT "A"]` — the loop aborts before
`srv.close()` — so the claim that CLOSE is issued after every successfully
selected folder, including when the action terminates with an error, fails. -/
theorem close_skip_cex :
    (for_each_folder (fun _ => true) (fun _ => ActOutcome.hardFail) [] ["A"] {}).2.1
      = [Cmd.select "A"] ∧
    Cmd.close ∉
      (for_each_folder (fun _ => true) (fun _ => ActOutcome.hardFail) [] ["A"] {}).2.1 ∧
    (for_each_folder (fun _ => true) (fun _ => ActOutcome.hardFail) [] ["A"] {}).2.2
      = false := by
  refine ⟨rfl, ?_, rfl⟩
  intro h
  rw [show (for_each_folder (fun _ => true) (fun _ => ActOutcome.hardFail) [] ["A"] {}).2.1
      = [Cmd.select "A"] from rfl] at h
  simp at h

/-- C9 amended: CLOSE is issued after every folder visit whose action
returns normally or raises the folder-scoped `FolderFailure`; when the
action raises any other exception the folder loop aborts without issuing
CLOSE for that folder (the session is then torn down by the account-level
handler).  Formally, when no action outcome is `hardFail`, the trace is
exactly one `SELECT` per visited folder, followed by `CLOSE` whenever the
SELECT succeeded, and the loop completes. -/
theorem close_after_folder_visits (selectOk : String → Bool) (act : String → ActOutcome)
    (nf folders : List String) (acc : AccountSt)
    (h : ∀ f ∈ folders, act f ≠ ActOutcome.hardFail) :
    (for_each_folder selectOk act nf folders acc).2.1 =
      (folders.filter (fun f => f ∉ nf)).flatMap
        (fun f => if selectOk f then [Cmd.select f, Cmd.close] else [Cmd.select f]) ∧
    (for_each_folder selectOk act nf folders acc).2.2 = true := by
  revert h
  induction folders generalizing acc with
  | nil =>
    intro _
    simp [for_each_folder]
  | cons f fs ih =>
    intro h
    have hf : act f ≠ ActOutcome.hardFail := h f (List.mem_cons_self f fs)
    have hfs : ∀ g ∈ fs, act g ≠ ActOutcome.hardFail :=
      fun g hg => h g (List.mem_cons_of_mem f hg)
    by_cases hmem : f ∈ nf
    · simp only [for_each_folder, hmem, if_true]
      rw [List.filter_cons_of_neg (by simp [hmem])]
      exact ih acc hfs
    · rw [List.filter_cons_of_pos (by simp [hmem])]
      by_cases hsel : selectOk f = true
      · cases hact : act f with
        | ok =>
          simp only [for_each_folder, hmem, if_false, hsel, not_true_eq_false, hact]
          obtain ⟨e1, e2⟩ := ih acc hfs
          simp [e1, e2, hsel]
        | folderFail =>
          simp only [for_each_folder, hmem, if_false, hsel, not_true_eq_false, hact]
          obtain ⟨e1, e2⟩ :=
            ih { acc with errors := acc.errors ++ ["folder failure"] } hfs
          simp [e1, e2, hsel]
        | hardFail => exact absurd hact hf
      · simp only [for_each_folder, hmem, if_false, hsel, not_false_eq_true, if_true]
        obtain ⟨e1, e2⟩ :=
          ih { acc with errors := acc.errors ++ ["IMAP SELECT command failed"] } hfs
        simp [e1, e2, hsel]

/-- C9 amended, witness: two folders, one with a failing SELECT, both
actions folder-scoped; every visit's trace ends with CLOSE exactly when its
SELECT succeeded, and the loop completes. -/
theorem close_after_folder_visits_witness :
    (for_each_folder (fun f => f == "A") (fun _ => ActOutcome.folderFail) []
        ["A", "B"] {}).2.1 =
      (["A", "B"].filter (fun f => f ∉ ([] : List String))).flatMap
        (fun f => if (f == "A") then [Cmd.select f, Cmd.close]
          else [Cmd.select f]) ∧
    (for_each_folder (fun f => f == "A") (fun _ => ActOutcome.folderFail) []
        ["A", "B"] {}).2.2 = true :=
  close_after_folder_visits (fun f => f == "A") (fun _ => ActOutcome.folderFail) []
    ["A", "B"] {} (by intro f _ hc; cases hc)

/-- C2: Maildir delivery rollback.  When the directory lock was acquired
but the final directory fsync/unlock/close fails, every UID of the batch
that had been classified as delivered (written, fsynced and renamed) is
re-classified as undelivered: the delivered list comes back empty, each
renamed UID lands in the failed list, `num_delivered` is unchanged,
`num_undelivered` grows by the whole batch, and the post-delivery STORE
step issues no command. -/
theorem maildir_dirsync_rollback (paranoid : Option Bool) (store_number : Nat)
    (mark : String) (storeResp : List Bool) (fsyncOk renameOk : Uid → Bool)
    (unsynced failed0 : List Uid) (acc : AccountSt) :
    (maildir_finish fsyncOk true renameOk false unsynced failed0).1 = [] ∧
    (∀ u ∈ (unsynced.filter (fun u => fsyncOk u)).filter (fun u => renameOk u),
      u ∈ (maildir_finish fsyncOk true renameOk false unsynced failed0).2.1) ∧
    (do_fetch_batch_tail paranoid store_number mark storeResp fsyncOk true renameOk
        false unsynced failed0 acc).1.num_delivered = acc.num_delivered ∧
    (do_fetch_batch_tail paranoid store_number mark storeResp fsyncOk true renameOk
        false unsynced failed0 acc).1.num_undelivered
      = acc.num_undelivered + failed0.length + unsynced.length ∧
    (do_fetch_batch_tail paranoid store_number mark storeResp fsyncOk true renameOk
        false unsynced failed0 acc).2.1 = [] := by
  have hm : maildir_finish fsyncOk true renameOk false unsynced failed0 =
      ([],
       (failed0 ++ unsynced.filter (fun u => ! fsyncOk u) ++
          (unsynced.filter (fun u => fsyncOk u)).filter (fun u => ! renameOk u)) ++
         (unsynced.filter (fun u => fsyncOk u)).filter (fun u => renameOk u),
       ["failed to sync --maildir"]) := by
    simp [maildir_finish]
  have hlen : ((failed0 ++ unsynced.filter (fun u => ! fsyncOk u) ++
          (unsynced.filter (fun u => fsyncOk u)).filter (fun u => ! renameOk u)) ++
         (unsynced.filter (fun u => fsyncOk u)).filter (fun u => renameOk u)).length
      = failed0.length + unsynced.length := by
    simp only [List.length_append]
    have h1 := List.length_eq_length_filter_add (l := unsynced) (fun u => fsyncOk u)
    have h2 := List.length_eq_length_filter_add
      (l := unsynced.filter (fun u => fsyncOk u)) (fun u => renameOk u)
    omega
  have h1 := List.length_eq_length_filter_add (l := unsynced) (fun u => fsyncOk u)
  have h2 := List.length_eq_length_filter_add
    (l := unsynced.filter (fun u => fsyncOk u)) (fun u => renameOk u)
  simp at h1 h2
  refine ⟨by rw [hm], ?_, ?_, ?_, ?_⟩
  · intro u hu
    rw [hm]
    simp only [List.mem_append]
    exact Or.inr hu
  · simp only [do_fetch_batch_tail, hm]
    split
    · split
      · simp
      · split
        · simp
        · rw [do_store_nil]
          simp
    · rw [do_store_nil]
      simp
  · simp only [do_fetch_batch_tail, hm]
    split
    · split
      · simp
        omega
      · split
        · simp
          omega
        · rw [do_store_nil]
          simp
          omega
    · rename_i hfl
      rw [do_store_nil]
      simp only [gt_iff_lt, Nat.not_lt, Nat.le_zero, List.length_append] at hfl
      simp
      omega
  · simp only [do_fetch_batch_tail, hm]
    split
    · split
      · simp
      · split
        · simp
        · rw [do_store_nil]
    · rw [do_store_nil]

/-- Each byte of the string contributes at least one byte to the quoted
body. -/
theorem quotedBody_length_ge (s : List Nat) : s.length ≤ (quotedBody s).length := by
  induction s with
  | nil => simp [quotedBody]
  | cons c t ih =>
    simp only [quotedBody, List.foldr_cons, List.length_append, List.length_cons] at ih ⊢
    have : 1 ≤ (quoteByte c).length := by
      by_cases h1 : c = 92 <;> by_cases h2 : c = 34 <;> simp [quoteByte, h1, h2]
    omega

/-- Scanning the escaped body of a quoted string accumulates exactly the
original bytes, then the closing quote returns to the outer loop, which at
end of input emits the accumulated string (or nothing when it is empty). -/
theorem ipQuoted_quotedBody (s : List Nat) :
    ∀ (fuel : Nat) (r : List Nat) (lits : List (List Nat)) (acc : List ITree),
    s.length + 2 ≤ fuel →
    ipQuoted fuel (quotedBody s ++ [34]) lits true acc r =
      (if r ++ s = [] then Except.ok (acc, [], lits)
       else Except.ok (acc ++ [ITree.str (r ++ s)], [], lits)) := by
  induction s with
  | nil =>
    intro fuel r lits acc hfuel
    match fuel, hfuel with
    | f + 1, _ =>
      simp only [quotedBody, List.foldr_nil, List.nil_append, ipQuoted, if_pos rfl]
      match f, (by omega : 1 ≤ f) with
      | f' + 1, _ =>
        simp only [ipLoop, List.append_nil]
        by_cases hr : r = [] <;> simp [hr]
  | cons c t ih =>
    intro fuel r lits acc hfuel
    simp only [List.length_cons] at hfuel
    match fuel, hfuel with
    | f + 1, hf =>
      by_cases h92 : c = 92
      · subst h92
        have hbody : quotedBody (92 :: t) ++ [34] = 92 :: 92 :: (quotedBody t ++ [34]) := by
          simp [quotedBody, quoteByte]
        rw [hbody]
        simp only [ipQuoted, if_neg (by omega : ¬ (92 : Nat) = 34), if_pos rfl]
        rw [ih f (r ++ [92]) lits acc (by omega)]
        simp
      · by_cases h34 : c = 34
        · subst h34
          have hbody : quotedBody (34 :: t) ++ [34] = 92 :: 34 :: (quotedBody t ++ [34]) := by
            simp [quotedBody, quoteByte]
          rw [hbody]
          simp only [ipQuoted, if_neg (by omega : ¬ (92 : Nat) = 34), if_pos rfl]
          rw [ih f (r ++ [34]) lits acc (by omega)]
          simp
        · have hbody : quotedBody (c :: t) ++ [34] = c :: (quotedBody t ++ [34]) := by
            simp [quotedBody, quoteByte, h92, h34]
          rw [hbody]
          simp only [ipQuoted, if_neg h34, if_neg h92]
          rw [ih f (r ++ [c]) lits acc (by omega)]
          simp

/-- C5 counterexample: quoting the empty string round-trips to the empty
result list, not to a one-element list holding the empty string: the parser
drops an empty `res` at end of input. -/
theorem quote_roundtrip_empty_cex :
    imap_parse (imap_quote_bytes []) [] = Except.ok ([] : List ITree) ∧
    (Except.ok ([] : List ITree) : Except String (List ITree)) ≠ Except.ok [ITree.str []] := by
  refine ⟨rfl, ?_⟩
  intro h
  injection h with h
  exact List.cons_ne_nil _ _ h.symm

/-- C5 amended: for every nonempty byte string `s`, parsing the quoter's
output recovers the original: `imap_parse (imap_quote s) []` is the
one-element list holding `s`; for the empty string the parser instead
returns the empty list. -/
theorem quote_parse_roundtrip (s : List Nat) (h : s ≠ []) :
    imap_parse (imap_quote_bytes s) [] = Except.ok [ITree.str s] := by
  have hlen := quotedBody_length_ge s
  have hd : imap_parse_data (imap_quote_bytes s) [] =
      Except.ok ([ITree.str s], [], []) := by
    unfold imap_parse_data imap_quote_bytes
    have hfuel : 2 * (34 :: quotedBody s ++ [34]).length + 2 =
        (2 * (quotedBody s).length + 5) + 1 := by
      simp
      omega
    rw [hfuel]
    simp only [ipLoop, if_pos rfl, ne_eq, not_true_eq_false, reduceIte, List.append_eq]
    rw [ipQuoted_quotedBody s (2 * (quotedBody s).length + 5) [] [] [] (by omega)]
    simp [h]
  unfold imap_parse
  rw [hd]
  simp

/-- C5 amended, witness: the string with bytes `a`, `\`, `"` round-trips. -/
theorem quote_parse_roundtrip_witness :
    imap_parse (imap_quote_bytes [97, 92, 34]) [] = Except.ok [ITree.str [97, 92, 34]] :=
  quote_parse_roundtrip [97, 92, 34] (by simp)

/-- C8 counterexample: the input `(` — a byte string ending inside an open
parenthesised group — is accepted, not rejected: the parser returns the
tree holding one empty group instead of raising. -/
theorem unclosed_group_parses_cex :
    imap_parse [40] [] = Except.ok [ITree.grp []] ∧
    ∀ e, imap_parse [40] [] ≠ Except.error e := by
  refine ⟨rfl, ?_⟩
  intro e h
  rw [show imap_parse [40] [] = Except.ok [ITree.grp []] from rfl] at h
  exact Except.noConfusion h

/-- Scanning quote-free, backslash-free bytes inside a quoted string until
the input ends: a nonempty pending string raises, an empty one is silently
accepted. -/
theorem ipQuoted_runs_out (s : List Nat) :
    ∀ (fuel : Nat) (r : List Nat) (lits : List (List Nat)) (top : Bool) (acc : List ITree),
    (∀ c ∈ s, c ≠ 34 ∧ c ≠ 92) → s.length + 1 ≤ fuel →
    ipQuoted fuel s lits top acc r =
      (if r ++ s = [] then Except.ok (acc, [], lits)
       else Except.error "unfinished quote or parens") := by
  induction s with
  | nil =>
    intro fuel r lits top acc _ hfuel
    match fuel, hfuel with
    | f + 1, _ =>
      simp only [ipQuoted, List.append_nil]
      by_cases hr : r = [] <;> simp [hr]
  | cons c t ih =>
    intro fuel r lits top acc hs hfuel
    simp only [List.length_cons] at hfuel
    match fuel, hfuel with
    | f + 1, hf =>
      obtain ⟨h34, h92⟩ := hs c (List.mem_cons_self c t)
      simp only [ipQuoted, if_neg h34, if_neg h92]
      rw [ih f (r ++ [c]) lits top acc
        (fun d hd => hs d (List.mem_cons_of_mem c hd)) (by omega)]
      simp

/-- A quoted string whose input ends immediately after a backslash raises
the unfinished-escape error. -/
theorem ipQuoted_trailing_backslash (s : List Nat) :
    ∀ (fuel : Nat) (r : List Nat) (lits : List (List Nat)) (top : Bool) (acc : List ITree),
    (∀ c ∈ s, c ≠ 34 ∧ c ≠ 92) → s.length + 1 ≤ fuel →
    ipQuoted fuel (s ++ [92]) lits top acc r =
      Except.error "unfinished escape sequence" := by
  induction s with
  | nil =>
    intro fuel r lits top acc _ hfuel
    match fuel, hfuel with
    | f + 1, _ =>
      simp [ipQuoted]
  | cons c t ih =>
    intro fuel r lits top acc hs hfuel
    simp only [List.length_cons] at hfuel
    match fuel, hfuel with
    | f + 1, hf =>
      obtain ⟨h34, h92⟩ := hs c (List.mem_cons_self c t)
      simp only [List.cons_append, ipQuoted, if_neg h34, if_neg h92]
      exact ih f (r ++ [c]) lits top acc
        (fun d hd => hs d (List.mem_cons_of_mem c hd)) (by omega)

/-- Scanning a pending atom of non-special bytes below top level until the
input ends: a nonempty pending atom raises the unfinished-parens error. -/
theorem ipLoop_runs_out (s : List Nat) :
    ∀ (fuel : Nat) (r : List Nat) (lits : List (List Nat)) (acc : List ITree),
    (∀ c ∈ s, c ∉ ([34, 32, 40, 41, 123] : List Nat)) → s.length + 1 ≤ fuel →
    ipLoop fuel s lits false acc r =
      (if r ++ s = [] then Except.ok (acc, [], lits)
       else Except.error "unfinished quote or parens") := by
  induction s with
  | nil =>
    intro fuel r lits acc _ hfuel
    match fuel, hfuel with
    | f + 1, _ =>
      simp only [ipLoop, List.append_nil, Bool.false_eq_true, if_false]
      by_cases hr : r = [] <;> simp [hr]
  | cons c t ih =>
    intro fuel r lits acc hs hfuel
    simp only [List.length_cons] at hfuel
    match fuel, hfuel with
    | f + 1, hf =>
      have hc := hs c (List.mem_cons_self c t)
      have h34 : ¬ c = 34 := fun h => hc (by simp [h])
      have h32 : ¬ c = 32 := fun h => hc (by simp [h])
      have h40 : ¬ c = 40 := fun h => hc (by simp [h])
      have h41 : ¬ c = 41 := fun h => hc (by simp [h])
      have h123 : ¬ c = 123 := fun h => hc (by simp [h])
      simp only [ipLoop, if_neg h34, if_neg h32, if_neg h40, if_neg h41, if_neg h123]
      rw [ih f (r ++ [c]) lits acc
        (fun d hd => hs d (List.mem_cons_of_mem c hd)) (by omega)]
      simp

/-- C8 amended: the parser rejects an input ending inside a nonempty quoted
string, an input ending immediately after a backslash escape, and an input
ending inside an open group with a nonempty pending atom; but a group (or
quote) left open at an element boundary is accepted, as shown by the
counterexample `(`. -/
theorem parse_unterminated_errors :
    (∀ s : List Nat, s ≠ [] → (∀ c ∈ s, c ≠ 34 ∧ c ≠ 92) →
      imap_parse (34 :: s) [] = Except.error "unfinished quote or parens") ∧
    (∀ s : List Nat, (∀ c ∈ s, c ≠ 34 ∧ c ≠ 92) →
      imap_parse (34 :: s ++ [92]) [] = Except.error "unfinished escape sequence") ∧
    (∀ s : List Nat, s ≠ [] → (∀ c ∈ s, c ∉ ([34, 32, 40, 41, 123] : List Nat)) →
      imap_parse (40 :: s) [] = Except.error "unfinished quote or parens") := by
  refine ⟨?_, ?_, ?_⟩
  · intro s hne hs
    unfold imap_parse imap_parse_data
    have hfuel : 2 * (34 :: s).length + 2 = (2 * s.length + 3) + 1 := by simp; omega
    rw [hfuel]
    simp only [ipLoop, if_pos rfl, ne_eq, not_true_eq_false, reduceIte]
    rw [ipQuoted_runs_out s (2 * s.length + 3) [] [] true [] hs (by omega)]
    simp [hne]
  · intro s hs
    unfold imap_parse imap_parse_data
    have hfuel : 2 * (34 :: s ++ [92]).length + 2 = (2 * s.length + 5) + 1 := by simp; omega
    rw [hfuel]
    simp only [ipLoop, if_pos rfl, ne_eq, not_true_eq_false, reduceIte, List.append_eq]
    rw [ipQuoted_trailing_backslash s (2 * s.length + 5) [] [] true [] hs (by omega)]
  · intro s hne hs
    unfold imap_parse imap_parse_data
    have hfuel : 2 * (40 :: s).length + 2 = (2 * s.length + 3) + 1 := by simp; omega
    rw [hfuel]
    simp only [ipLoop, if_neg (by omega : ¬ (40 : Nat) = 34),
      if_neg (by omega : ¬ (40 : Nat) = 32), if_pos rfl, ne_eq, not_true_eq_false, reduceIte]
    rw [ipLoop_runs_out s (2 * s.length + 3) [] [] [] hs (by omega)]
    simp [hne]

/-- C8 amended, witness at the concrete inputs `"a`, `"a\` and `(a`. -/
theorem parse_unterminated_errors_witness :
    imap_parse [34, 97] [] = Except.error "unfinished quote or parens" ∧
    imap_parse [34, 97, 92] [] = Except.error "unfinished escape sequence" ∧
    imap_parse [40, 97] [] = Except.error "unfinished quote or parens" :=
  ⟨parse_unterminated_errors.1 [97] (by simp) (by decide),
   parse_unterminated_errors.2.1 [97] (by decide),
   parse_unterminated_errors.2.2 [97] (by simp) (by decide)⟩

/-- Unfolding the packing loop when a pass leaves nothing over. -/
theorem packLoop_eq_done {bn bs : Nat} {new batch b' : List BEntry}
    (hp : packPass bn bs new batch = (b', [])) :
    packLoop bn bs new batch = ([], b') := by
  rw [packLoop.eq_def]
  split
  · rename_i b2 heq
    rw [hp] at heq
    injection heq with h1 h2
    rw [h1]
  · rename_i x lo' heq
    rw [hp] at heq
    injection heq with h1 h2
    exact absurd h2.symm (List.cons_ne_nil x lo')
  · rename_i b1 b2 x lo' heq
    rw [hp] at heq
    injection heq with h1 h2
    exact absurd h2.symm (List.cons_ne_nil x lo')

/-- Unfolding the packing loop when a pass leaves leftovers but an empty
batch: the first (oversize) leftover is popped into a solitary batch. -/
theorem packLoop_eq_pop {bn bs : Nat} {new batch : List BEntry} {x : BEntry}
    {lo' : List BEntry} (hp : packPass bn bs new batch = ([], x :: lo')) :
    packLoop bn bs new batch =
      ([x] :: (packLoop bn bs lo' []).1, (packLoop bn bs lo' []).2) := by
  rw [packLoop.eq_def]
  split
  · rename_i b2 heq
    rw [hp] at heq
    injection heq with h1 h2
    exact absurd h2 (List.cons_ne_nil x lo')
  · rename_i y lo2 heq
    rw [hp] at heq
    injection heq with h1 h2
    injection h2 with h3 h4
    rw [h3, h4]
  · rename_i b1 b2 y lo2 heq
    rw [hp] at heq
    injection heq with h1 h2
    exact absurd h1.symm (List.cons_ne_nil b1 b2)

/-- Unfolding the packing loop when a pass leaves leftovers and a nonempty
batch: the batch is emitted and the loop continues on the leftovers. -/
theorem packLoop_eq_emit {bn bs : Nat} {new batch b2 : List BEntry} {b1 x : BEntry}
    {lo' : List BEntry} (hp : packPass bn bs new batch = (b1 :: b2, x :: lo')) :
    packLoop bn bs new batch =
      ((b1 :: b2) :: (packLoop bn bs (x :: lo') []).1,
        (packLoop bn bs (x :: lo') []).2) := by
  rw [packLoop.eq_def]
  split
  · rename_i c2 heq
    rw [hp] at heq
    injection heq with h1 h2
    exact absurd h2 (List.cons_ne_nil x lo')
  · rename_i y lo2 heq
    rw [hp] at heq
    injection heq with h1 h2
    exact absurd h1 (List.cons_ne_nil b1 b2)
  · rename_i c1 c2 y lo2 heq
    rw [hp] at heq
    injection heq with h1 h2
    rw [← h1, ← h2]

/-- A packing pass conserves the messages: batch plus leftovers permute
the input batch plus the incoming group. -/
theorem packPass_perm (bn bs : Nat) (new : List BEntry) :
    ∀ batch, ((packPass bn bs new batch).1 ++ (packPass bn bs new batch).2).Perm
      (batch ++ new) := by
  induction new with
  | nil =>
    intro batch
    simp [packPass]
  | cons x rest ih =>
    intro batch
    obtain ⟨u, s⟩ := x
    simp only [packPass]
    split
    · have h := ih (batch ++ [(u, s)])
      rw [show (batch ++ [(u, s)]) ++ rest = batch ++ (u, s) :: rest by simp] at h
      exact h
    · exact List.perm_middle.trans ((List.Perm.cons (u, s) (ih batch)).trans
        List.perm_middle.symm)

/-- A packing pass keeps the running batch within both bounds. -/
theorem packPass_good (bn bs : Nat) (new : List BEntry) :
    ∀ batch, GoodBatch bn bs batch → GoodBatch bn bs (packPass bn bs new batch).1 := by
  induction new with
  | nil =>
    intro batch hg
    simpa [packPass] using hg
  | cons x rest ih =>
    intro batch hg
    obtain ⟨u, s⟩ := x
    simp only [packPass]
    split
    · rename_i hcond
      refine ih (batch ++ [(u, s)]) (Or.inr ⟨?_, ?_⟩)
      · simp only [List.length_append, List.length_cons, List.length_nil]
        omega
      · simp only [sumSizes, List.map_append, List.sum_append, List.map_cons,
          List.sum_cons, List.map_nil, List.sum_nil]
        have := hcond.2
        simp only [sumSizes] at this
        omega
    · exact ih batch hg

/-- The packing loop conserves the messages: the emitted batches plus the
still-running batch permute the input batch plus the incoming group. -/
theorem packLoop_perm (bn bs : Nat) (new batch : List BEntry) :
    ((packLoop bn bs new batch).1.flatten ++ (packLoop bn bs new batch).2).Perm
      (batch ++ new) := by
  induction new, batch using packLoop.induct bn bs with
  | case1 new batch b' hp =>
    rw [packLoop_eq_done hp]
    have h := packPass_perm bn bs new batch
    rw [hp] at h
    simpa using h
  | case2 new batch x lo' hp ih =>
    rw [packLoop_eq_pop hp]
    have h := packPass_perm bn bs new batch
    rw [hp] at h
    simp only [List.nil_append] at h
    have ih' : ((packLoop bn bs lo' []).1.flatten ++
        (packLoop bn bs lo' []).2).Perm lo' := by simpa using ih
    rw [show (([x] :: (packLoop bn bs lo' []).1).flatten ++ (packLoop bn bs lo' []).2)
        = x :: ((packLoop bn bs lo' []).1.flatten ++ (packLoop bn bs lo' []).2) by simp]
    exact (List.Perm.cons x ih').trans h
  | case3 new batch b1 b2 x lo' hp ih =>
    rw [packLoop_eq_emit hp]
    have h := packPass_perm bn bs new batch
    rw [hp] at h
    have ih' : ((packLoop bn bs (x :: lo') []).1.flatten ++
        (packLoop bn bs (x :: lo') []).2).Perm (x :: lo') := by simpa using ih
    rw [show (((b1 :: b2) :: (packLoop bn bs (x :: lo') []).1).flatten ++
          (packLoop bn bs (x :: lo') []).2)
        = (b1 :: b2) ++ ((packLoop bn bs (x :: lo') []).1.flatten ++
            (packLoop bn bs (x :: lo') []).2) by simp]
    exact (List.Perm.append_left (b1 :: b2) ih').trans h

/-- Every batch the packing loop emits respects the `batch_number` bound
and either respects the strict `batch_size` bound or is a solitary
oversize message. -/
theorem packLoop_emitted (bn bs : Nat) (hbn : 1 ≤ bn) (new batch : List BEntry) :
    GoodBatch bn bs batch →
    ∀ b ∈ (packLoop bn bs new batch).1,
      b.length ≤ bn ∧ (sumSizes b < bs ∨ b.length = 1) := by
  induction new, batch using packLoop.induct bn bs with
  | case1 new batch b' hp =>
    intro _ b hb
    rw [packLoop_eq_done hp] at hb
    simp at hb
  | case2 new batch x lo' hp ih =>
    intro hg b hb
    rw [packLoop_eq_pop hp] at hb
    rcases List.mem_cons.mp hb with hb | hb
    · subst hb
      exact ⟨by simpa using hbn, Or.inr rfl⟩
    · exact ih (Or.inl rfl) b hb
  | case3 new batch b1 b2 x lo' hp ih =>
    intro hg b hb
    rw [packLoop_eq_emit hp] at hb
    rcases List.mem_cons.mp hb with hb | hb
    · subst hb
      have hgood := packPass_good bn bs new batch hg
      rw [hp] at hgood
      rcases hgood with h | h
      · exact absurd h (by simp)
      · exact ⟨h.1, Or.inl h.2⟩
    · exact ih (Or.inl rfl) b hb

/-- The still-running batch after the packing loop respects both bounds. -/
theorem packLoop_final_good (bn bs : Nat) (new batch : List BEntry) :
    GoodBatch bn bs batch → GoodBatch bn bs (packLoop bn bs new batch).2 := by
  induction new, batch using packLoop.induct bn bs with
  | case1 new batch b' hp =>
    intro hg
    have h := packPass_good bn bs new batch hg
    rw [hp] at h
    rw [packLoop_eq_done hp]
    exact h
  | case2 new batch x lo' hp ih =>
    intro _
    rw [packLoop_eq_pop hp]
    exact ih (Or.inl rfl)
  | case3 new batch b1 b2 x lo' hp ih =>
    intro _
    rw [packLoop_eq_emit hp]
    exact ih (Or.inl rfl)

/-- C3: batch packing bounds.  Starting from an empty running batch, for
any sequence of probed `(uid, size)` groups, with `batch_number ≥ 1`, every
batch handed to the body-fetch step has at most `batch_number` messages and
either total size strictly below `batch_size` or exactly one message; and
the emitted batches are a permutation of the probed input — every probed
UID lands in exactly one batch. -/
theorem batch_packing_bounds (bn bs : Nat) (groups : List (List BEntry)) (hbn : 1 ≤ bn) :
    (∀ b ∈ packGroups bn bs groups [],
      b.length ≤ bn ∧ (sumSizes b < bs ∨ b.length = 1)) ∧
    ((packGroups bn bs groups []).flatten).Perm groups.flatten := by
  suffices h : ∀ (batch : List BEntry), GoodBatch bn bs batch →
      (∀ b ∈ packGroups bn bs groups batch,
        b.length ≤ bn ∧ (sumSizes b < bs ∨ b.length = 1)) ∧
      ((packGroups bn bs groups batch).flatten).Perm (batch ++ groups.flatten) by
    have h0 := h [] (Or.inl rfl)
    exact ⟨h0.1, by simpa using h0.2⟩
  induction groups with
  | nil =>
    intro batch hg
    constructor
    · intro b hb
      simp only [packGroups] at hb
      split at hb
      · simp at hb
      · rename_i hne
        rcases List.mem_singleton.mp hb with rfl
        rcases hg with h | h
        · exact absurd h hne
        · exact ⟨h.1, Or.inl h.2⟩
    · simp only [packGroups, List.flatten_nil, List.append_nil]
      split
      · rename_i he
        rw [he]
        simp
      · simp
  | cons g gs ih =>
    intro batch hg
    have hfin := packLoop_final_good bn bs g batch hg
    have hperm := packLoop_perm bn bs g batch
    have hemit := packLoop_emitted bn bs hbn g batch hg
    obtain ⟨ihb, ihp⟩ := ih (packLoop bn bs g batch).2 hfin
    constructor
    · intro b hb
      simp only [packGroups, List.mem_append] at hb
      rcases hb with hb | hb
      · exact hemit b hb
      · exact ihb b hb
    · simp only [packGroups, List.flatten_append, List.flatten_cons]
      refine (List.Perm.append_left _ ihp).trans ?_
      rw [← List.append_assoc]
      refine (List.Perm.append_right _ hperm).trans ?_
      rw [List.append_assoc]

/-- C3 witness: two groups with `batch_number = 2`, `batch_size = 250`:
sizes 100 and 200 do not fit together, the oversize 300 goes alone. -/
theorem batch_packing_bounds_witness :
    (∀ b ∈ packGroups 2 250 [[(1, 100), (2, 200)], [(3, 300)]] [],
      b.length ≤ 2 ∧ (sumSizes b < 250 ∨ b.length = 1)) ∧
    ((packGroups 2 250 [[(1, 100), (2, 200)], [(3, 300)]] []).flatten).Perm
      [[(1, 100), (2, 200)], [(3, 300)]].flatten :=
  batch_packing_bounds 2 250 [[(1, 100), (2, 200)], [(3, 300)]] (by omega)

/-- Every pair the entry loop collects comes from the accumulator or from
the probe response's own `(UID, size)` entries. -/
theorem processEntries_sub (entries : List Entry) :
    ∀ (rem : List Uid) (acc0 : List BEntry) (errs : List String)
      (new : List BEntry) (rem' : List Uid) (errs' : List String),
    processEntries entries rem acc0 errs = some (new, rem', errs') →
    ∀ p ∈ new, p ∈ acc0 ∨ p ∈ probePairs (ProbeResp.ok entries) := by
  induction entries with
  | nil =>
    intro rem acc0 errs new rem' errs' h p hp
    simp only [processEntries, Option.some.injEq, Prod.mk.injEq] at h
    exact Or.inl (by rw [← h.1] at hp; exact hp)
  | cons e rest ih =>
    intro rem acc0 errs new rem' errs' h p hp
    match e with
    | Entry.pair u s =>
      simp only [processEntries] at h
      split at h
      · have := ih (rem.erase u) (acc0 ++ [(u, s)]) errs new rem' errs' h p hp
        rcases this with h1 | h1
        · rcases List.mem_append.mp h1 with h2 | h2
          · exact Or.inl h2
          · refine Or.inr ?_
            rcases List.mem_singleton.mp h2 with rfl
            simp [probePairs]
        · refine Or.inr ?_
          simp only [probePairs] at h1 ⊢
          simp [h1]
      · exact absurd h (by simp)
    | Entry.conflict =>
      simp only [processEntries] at h
      have := ih rem acc0 (errs ++ [conflictMsg]) new rem' errs' h p hp
      rcases this with h1 | h1
      · exact Or.inl h1
      · refine Or.inr ?_
        simpa [probePairs] using h1

/-- Every message in a batch produced by the probe/pack loop comes from the
already-collected batches, the carried batch, or one of the remaining probe
responses. -/
theorem do_fetch_go_mem (bn bs : Nat) (gs : List (List Uid)) :
    ∀ (rs : List ProbeResp) (acc : AccountSt) (batches : List (List BEntry))
      (batch : List BEntry) (acc' : AccountSt) (bs' : List (List BEntry)),
    do_fetch_go bn bs gs rs acc batches batch = some (acc', bs') →
    ∀ b ∈ bs', ∀ p ∈ b,
      p ∈ batches.flatten ∨ p ∈ batch ∨ ∃ r ∈ rs, p ∈ probePairs r := by
  induction gs with
  | nil =>
    intro rs acc batches batch acc' bs' h b hb p hp
    simp only [do_fetch_go, Option.some.injEq, Prod.mk.injEq] at h
    rw [← h.2] at hb
    rcases List.mem_append.mp hb with h1 | h1
    · exact Or.inl (List.mem_flatten.mpr ⟨b, h1, hp⟩)
    · refine Or.inr (Or.inl ?_)
      split at h1
      · simp at h1
      · rcases List.mem_singleton.mp h1 with rfl
        exact hp
  | cons g gs ih =>
    intro rs acc batches batch acc' bs' h b hb p hp
    match rs with
    | [] =>
      simp only [do_fetch_go, List.headD_nil] at h
      have := ih [] _ batches batch acc' bs' h b hb p hp
      rcases this with h1 | h1 | ⟨r, hr, _⟩
      · exact Or.inl h1
      · exact Or.inr (Or.inl h1)
      · exact absurd hr (List.not_mem_nil r)
    | r0 :: rs' =>
      simp only [do_fetch_go, List.headD_cons, List.tail_cons] at h
      match r0 with
      | ProbeResp.fail =>
        have := ih rs' _ batches batch acc' bs' h b hb p hp
        rcases this with h1 | h1 | ⟨r, hr, hpr⟩
        · exact Or.inl h1
        · exact Or.inr (Or.inl h1)
        · exact Or.inr (Or.inr ⟨r, List.mem_cons_of_mem _ hr, hpr⟩)
      | ProbeResp.ok entries =>
        simp only [] at h
        match hpe : processEntries entries g [] [] with
        | none =>
          rw [hpe] at h
          exact absurd h (by simp)
        | some (new, remaining, cErrs) =>
          rw [hpe] at h
          by_cases hrem : remaining = []
          · simp only [hrem, ne_eq, not_true_eq_false, if_false] at h
            have := ih rs' _ _ _ acc' bs' h b hb p hp
            rcases this with h1 | h1 | ⟨r, hr, hpr⟩
            · rcases List.mem_flatten.mp h1 with ⟨b2, hb2, hpb2⟩
              rcases List.mem_append.mp hb2 with h2 | h2
              · exact Or.inl (List.mem_flatten.mpr ⟨b2, h2, hpb2⟩)
              · have hperm := packLoop_perm bn bs new batch
                have hmem : p ∈ (packLoop bn bs new batch).1.flatten ++
                    (packLoop bn bs new batch).2 :=
                  List.mem_append.mpr (Or.inl (List.mem_flatten.mpr ⟨b2, h2, hpb2⟩))
                have := hperm.mem_iff.mp hmem
                rcases List.mem_append.mp this with h3 | h3
                · exact Or.inr (Or.inl h3)
                · have := processEntries_sub entries g [] [] new remaining cErrs hpe p h3
                  rcases this with h4 | h4
                  · exact absurd h4 (List.not_mem_nil p)
                  · exact Or.inr (Or.inr ⟨ProbeResp.ok entries, List.mem_cons_self _ _, h4⟩)
            · have hperm := packLoop_perm bn bs new batch
              have hmem : p ∈ (packLoop bn bs new batch).1.flatten ++
                  (packLoop bn bs new batch).2 := List.mem_append.mpr (Or.inr h1)
              have := hperm.mem_iff.mp hmem
              rcases List.mem_append.mp this with h3 | h3
              · exact Or.inr (Or.inl h3)
              · have := processEntries_sub entries g [] [] new remaining cErrs hpe p h3
                rcases this with h4 | h4
                · exact absurd h4 (List.not_mem_nil p)
                · exact Or.inr (Or.inr ⟨ProbeResp.ok entries, List.mem_cons_self _ _, h4⟩)
            · exact Or.inr (Or.inr ⟨r, List.mem_cons_of_mem _ hr, hpr⟩)
          · simp only [hrem, ne_eq, not_false_eq_true, if_true] at h
            have := ih rs' _ batches batch acc' bs' h b hb p hp
            rcases this with h1 | h1 | ⟨r, hr, hpr⟩
            · exact Or.inl h1
            · exact Or.inr (Or.inl h1)
            · exact Or.inr (Or.inr ⟨r, List.mem_cons_of_mem _ hr, hpr⟩)

/-- C10: whole-group failure on an incomplete size probe.  When a probe
group's OK response parses to `(uid, size)` pairs that miss at least one
requested UID (and carries no conflict entries), the engine charges the
whole group to `num_undelivered`, appends exactly one error, leaves the
packing state untouched — the group's parsed pairs are discarded — and
continues with the remaining groups; a UID of the group that occurs in no
other response never reaches any body-fetch batch. -/
theorem probe_group_failure (bn bs : Nat) (g : List Uid) (gs : List (List Uid))
    (entries : List Entry) (rs : List ProbeResp) (acc : AccountSt)
    (batches : List (List BEntry)) (batch : List BEntry)
    (new : List BEntry) (remaining : List Uid)
    (hproc : processEntries entries g [] [] = some (new, remaining, []))
    (hrem : remaining ≠ []) :
    do_fetch_go bn bs (g :: gs) (ProbeResp.ok entries :: rs) acc batches batch =
      do_fetch_go bn bs gs rs
        { acc with num_undelivered := acc.num_undelivered + g.length,
                   errors := acc.errors ++ [groupIncompleteMsg] } batches batch ∧
    (acc.errors ++ [groupIncompleteMsg]).length = acc.errors.length + 1 ∧
    (∀ (acc' : AccountSt) (bs' : List (List BEntry)),
      do_fetch_go bn bs gs rs
        { acc with num_undelivered := acc.num_undelivered + g.length,
                   errors := acc.errors ++ [groupIncompleteMsg] } batches batch
        = some (acc', bs') →
      ∀ u ∈ g, (∀ p ∈ batches.flatten, p.1 ≠ u) → (∀ p ∈ batch, p.1 ≠ u) →
      (∀ r ∈ rs, ∀ p ∈ probePairs r, p.1 ≠ u) →
      ∀ b ∈ bs', ∀ p ∈ b, p.1 ≠ u) := by
  refine ⟨?_, by simp, ?_⟩
  · simp only [do_fetch_go, List.headD_cons, List.tail_cons, hproc, hrem, ne_eq,
      not_false_eq_true, if_true, List.append_nil]
  · intro acc' bs' hrun u _ hbatches hbatch hrs b hb p hp
    have := do_fetch_go_mem bn bs gs rs _ batches batch acc' bs' hrun b hb p hp
    rcases this with h1 | h1 | ⟨r, hr, hpr⟩
    · exact hbatches p h1
    · exact hbatch p h1
    · exact hrs r hr p hpr

/-- C10 witness: requesting UIDs 1 and 2 but receiving a size only for UID
1 fails the whole two-message group and continues. -/
theorem probe_group_failure_witness :
    do_fetch_go 1 10 [[1, 2]] [ProbeResp.ok [Entry.pair 1 5]] {} [] [] =
      do_fetch_go 1 10 []  []
        { ({} : AccountSt) with
          num_undelivered := ({} : AccountSt).num_undelivered + [1, 2].length,
          errors := ({} : AccountSt).errors ++ [groupIncompleteMsg] } [] [] ∧
    (({} : AccountSt).errors ++ [groupIncompleteMsg]).length
      = ({} : AccountSt).errors.length + 1 ∧
    (∀ (acc' : AccountSt) (bs' : List (List BEntry)),
      do_fetch_go 1 10 [] []
        { ({} : AccountSt) with
          num_undelivered := ({} : AccountSt).num_undelivered + [1, 2].length,
          errors := ({} : AccountSt).errors ++ [groupIncompleteMsg] } [] []
        = some (acc', bs') →
      ∀ u ∈ [1, 2], (∀ p ∈ ([] : List (List BEntry)).flatten, p.1 ≠ u) →
      (∀ p ∈ ([] : List BEntry), p.1 ≠ u) →
      (∀ r ∈ ([] : List ProbeResp), ∀ p ∈ probePairs r, p.1 ≠ u) →
      ∀ b ∈ bs', ∀ p ∈ b, p.1 ≠ u) :=
  probe_group_failure 1 10 [1, 2] [] [Entry.pair 1 5] [] {} [] [] [(1, 5)] [2]
    rfl (by simp)

end HoardyMail
